import Mathlib

/-!
Shallow embedding of the nakamoto block store
(`src/nakamoto-chain/src/block/store.rs`) and proofs about it.

The file models:
* the fixed 80-byte consensus encoding of a block header (the codec used
  implicitly by `io::put` / `io::get` through `consensus_encode` /
  `consensus_decode`);
* the error type `Error` (`Io(kind)`, `Decoding`, `Corruption`), where the
  "NotFound" condition of the spec is `Error::Io` with kind `UnexpectedEof`;
* the in-memory store `Memory(NonEmpty<BlockHeader>)` with its operations;
* the file-backed store `FileStore`, modelled on the file's byte contents
  (a `List Nat` of bytes), with `io::put`, `io::get`, `Iter::next`,
  `rollback` (via `set_len`) and `len`.
-/

set_option maxRecDepth 40000

namespace Nakamoto

/-- Little-endian encoding of a natural number into `k` bytes, as the
bitcoin consensus encoding writes `i32`/`u32` fields. -/
def toLE : Nat → Nat → List Nat
  | 0, _ => []
  | k + 1, n => (n % 256) :: toLE k (n / 256)

/-- Little-endian decoding of a byte list back into a natural number. -/
def fromLE : List Nat → Nat
  | [] => 0
  | b :: bs => b + 256 * fromLE bs

/-- Block header: version (4 bytes), previous-block hash (32 bytes),
merkle root (32 bytes), time, bits, nonce (4 bytes each) — exactly the
fields of `bitcoin::blockdata::block::BlockHeader` in consensus order.
Integer fields are modelled as `Nat` holding the unsigned value of the
encoded 4 bytes; the hashes as byte lists. -/
structure BlockHeader where
  version : Nat
  prev_blockhash : List Nat
  merkle_root : List Nat
  time : Nat
  bits : Nat
  nonce : Nat
deriving Repr, DecidableEq

/-- Validity of a header value: integer fields fit in 4 bytes and the two
hashes are 32 bytes long, as the Rust types (`i32`/`u32`, 32-byte hash
arrays) guarantee by construction. -/
def BlockHeader.Valid (h : BlockHeader) : Prop :=
  h.version < 2 ^ 32 ∧ h.prev_blockhash.length = 32 ∧ h.merkle_root.length = 32 ∧
    h.time < 2 ^ 32 ∧ h.bits < 2 ^ 32 ∧ h.nonce < 2 ^ 32

instance (h : BlockHeader) : Decidable h.Valid := by
  unfold BlockHeader.Valid; infer_instance

/-- Size in bytes of a block header record (`HEADER_SIZE` in `store.rs`). -/
def HEADER_SIZE : Nat := 80

/-- Consensus encoding of a block header (`consensus_encode`): the fields in
fixed order and width, 80 bytes for a valid header. -/
def encodeHeader (h : BlockHeader) : List Nat :=
  toLE 4 h.version ++ h.prev_blockhash ++ h.merkle_root ++
    toLE 4 h.time ++ toLE 4 h.bits ++ toLE 4 h.nonce

/-- Consensus decoding of a block header (`consensus_decode`) from a byte
buffer: reads 4 + 32 + 32 + 4 + 4 + 4 = 80 bytes sequentially; fails (as the
Rust decoder does) when the buffer holds fewer than 80 bytes. -/
def decodeHeader (buf : List Nat) : Option BlockHeader :=
  if buf.length < 80 then none
  else some
    { version := fromLE (buf.take 4)
      prev_blockhash := (buf.drop 4).take 32
      merkle_root := (buf.drop 36).take 32
      time := fromLE ((buf.drop 68).take 4)
      bits := fromLE ((buf.drop 72).take 4)
      nonce := fromLE ((buf.drop 76).take 4) }

theorem toLE_length (k n : Nat) : (toLE k n).length = k := by
  induction k generalizing n with
  | zero => rfl
  | succ k ih => simp [toLE, ih]

theorem fromLE_toLE (k n : Nat) (h : n < 256 ^ k) : fromLE (toLE k n) = n := by
  induction k generalizing n with
  | zero => simp at h; simp [toLE, fromLE, h]
  | succ k ih =>
      simp only [toLE, fromLE]
      rw [ih (n / 256)]
      · omega
      · have : 256 ^ (k + 1) = 256 ^ k * 256 := by ring
        omega

/-- Kinds of `std::io::Error` the store distinguishes: `Iter::next` and the
spec's "NotFound" single out `io::ErrorKind::UnexpectedEof`; every other kind
is collapsed into `other`. -/
inductive IOErrorKind where
  | unexpectedEof
  | other
deriving Repr, DecidableEq

/-- Error type of `store.rs`: `Io(io::Error)` (modelled by its kind),
`Decoding(encode::Error)` and `Corruption`. -/
inductive Error where
  | io : IOErrorKind → Error
  | decoding : Error
  | corruption : Error
deriving Repr, DecidableEq

/-- Error value the spec calls "NotFound": an `Io` error whose kind is
`UnexpectedEof`, as produced by `Memory::get` and by `read_exact` at
end-of-file in `io::get`. -/
def Error.notFound : Error := Error.io IOErrorKind.unexpectedEof

/-- In-memory store `Memory(NonEmpty<BlockHeader>)`: a `NonEmpty` is a head
element plus a tail vector. -/
structure Memory where
  head : BlockHeader
  tail : List BlockHeader
deriving Repr, DecidableEq

/-- Underlying sequence of the `NonEmpty`: head then tail; height `i` is
element `i` of this list (`NonEmpty::get`). -/
def Memory.toList (m : Memory) : List BlockHeader :=
  m.head :: m.tail

/-- Memory `genesis`: `Ok(self.0.first().clone())` — always succeeds. -/
def Memory.genesis (m : Memory) : Except Error BlockHeader :=
  Except.ok m.head

/-- Memory `put`: `self.0.tail.extend(headers); Ok(self.0.len() as Height - 1)`. -/
def Memory.put (m : Memory) (headers : List BlockHeader) : Memory × Except Error Nat :=
  let m2 : Memory := ⟨m.head, m.tail ++ headers⟩
  (m2, Except.ok (m2.toList.length - 1))

/-- Memory `get`: `self.0.get(height)`; `None` becomes
`Err(Io(UnexpectedEof))`. -/
def Memory.get (m : Memory) (height : Nat) : Except Error BlockHeader :=
  match m.toList.get? height with
  | some h => Except.ok h
  | none => Except.error (Error.io IOErrorKind.unexpectedEof)

/-- Memory `rollback`: `0 => tail.clear()`, `h => tail.truncate(h + 1)`;
always returns `Ok(())`, so only the new state is modelled. -/
def Memory.rollback (m : Memory) (height : Nat) : Memory :=
  match height with
  | 0 => ⟨m.head, []⟩
  | h + 1 => ⟨m.head, m.tail.take (h + 1 + 1)⟩

/-- Memory `len`: `Ok(self.0.len())`. -/
def Memory.len (m : Memory) : Except Error Nat :=
  Except.ok m.toList.length

/-- Memory `iter`: every element paired with its index, each wrapped in `Ok`. -/
def Memory.iter (m : Memory) : List (Except Error (Nat × BlockHeader)) :=
  m.toList.enum.map Except.ok

/-- Result of subtracting 1 in unsigned 64-bit arithmetic
(`pos / HEADER_SIZE as u64 - 1` in `io::put`): wraps to `2^64 - 1` when the
operand is 0. -/
def u64sub1 (n : Nat) : Nat :=
  (n + (2 ^ 64 - 1)) % 2 ^ 64

/-- Free function `io::put`: seek to end-of-file, append each header's
encoding, return `pos / HEADER_SIZE - 1` computed in `u64`. The file is its
byte contents; `pos` after the writes is the new file length. -/
def ioPut (file : List Nat) (headers : List BlockHeader) : List Nat × Nat :=
  let file2 := file ++ (headers.map encodeHeader).flatten
  (file2, u64sub1 (file2.length / HEADER_SIZE))

/-- Free function `io::get`: seek to `height * HEADER_SIZE`, `read_exact` an
80-byte buffer (fails `UnexpectedEof` when fewer bytes remain), then decode
(a decode failure maps to `Error::Decoding`). The offset multiplication is
taken here over unbounded naturals — an idealization that coincides with the
source below the u64 overflow threshold; `ioGetU64` below models the
source's u64 offset arithmetic exactly and agrees with this function on
every non-overflowing height (`ioGetU64_eq_ioGet`). -/
def ioGet (file : List Nat) (height : Nat) : Except Error BlockHeader :=
  if file.length < height * HEADER_SIZE + HEADER_SIZE then
    Except.error (Error.io IOErrorKind.unexpectedEof)
  else
    match decodeHeader ((file.drop (height * HEADER_SIZE)).take HEADER_SIZE) with
    | some h => Except.ok h
    | none => Except.error Error.decoding

/-- Free function `io::get` with the source's offset arithmetic taken
literally: `height * HEADER_SIZE as u64` is a u64 multiplication, so in a
release build the offset wraps modulo `2^64` once `height ≥ ⌈2^64 / 80⌉`
(a debug build panics on the overflow instead); the read and decode are as
in `ioGet`. -/
def ioGetU64 (file : List Nat) (height : Nat) : Except Error BlockHeader :=
  if file.length < height * HEADER_SIZE % 2 ^ 64 + HEADER_SIZE then
    Except.error (Error.io IOErrorKind.unexpectedEof)
  else
    match decodeHeader ((file.drop (height * HEADER_SIZE % 2 ^ 64)).take HEADER_SIZE) with
    | some h => Except.ok h
    | none => Except.error Error.decoding

/-- One step of `io::Iter::next` at the given height: `UnexpectedEof` ends
the iteration (`None`), any other error is yielded, a header is yielded with
its height. -/
def iterNext (file : List Nat) (height : Nat) :
    Option (Except Error (Nat × BlockHeader)) :=
  match ioGet file height with
  | Except.error (Error.io IOErrorKind.unexpectedEof) => none
  | Except.error e => some (Except.error e)
  | Except.ok h => some (Except.ok (height, h))

/-- Sequence produced by driving `io::Iter` from the given height: items are
collected until the iterator ends (`None`) or surfaces an error, which is
terminal for the sequence. `fuel` bounds the number of polls; any
`fuel ≥ number of remaining records + 1` yields the full sequence. -/
def iterFrom (file : List Nat) (height : Nat) : Nat → List (Except Error (Nat × BlockHeader))
  | 0 => []
  | fuel + 1 =>
    match iterNext file height with
    | none => []
    | some (Except.error e) => [Except.error e]
    | some (Except.ok (i, h)) => Except.ok (i, h) :: iterFrom file (i + 1) fuel

/-- File-backed store `FileStore`, modelled by the byte contents of its file. -/
structure FileStore where
  file : List Nat
deriving Repr, DecidableEq

/-- FileStore `put`: delegates to `io::put` on the store's file. -/
def FileStore.put (s : FileStore) (headers : List BlockHeader) : FileStore × Nat :=
  let r := ioPut s.file headers
  (⟨r.1⟩, r.2)

/-- FileStore `get`: delegates to `io::get` (on an independent handle to the
same contents). -/
def FileStore.get (s : FileStore) (height : Nat) : Except Error BlockHeader :=
  ioGet s.file height

/-- FileStore `get` with the source's u64 offset arithmetic (`ioGetU64`),
release-build semantics. -/
def FileStore.getU64 (s : FileStore) (height : Nat) : Except Error BlockHeader :=
  ioGetU64 s.file height

/-- FileStore `genesis`: the `Store` trait's default method, `self.get(0)`. -/
def FileStore.genesis (s : FileStore) : Except Error BlockHeader :=
  s.get 0

/-- FileStore `rollback`: `file.set_len((height + 1) * HEADER_SIZE)` —
truncates the file to that many bytes, or zero-extends it when the file is
shorter; always returns `Ok(())`, so only the new state is modelled. -/
def FileStore.rollback (s : FileStore) (height : Nat) : FileStore :=
  let n := (height + 1) * HEADER_SIZE
  ⟨s.file.take n ++ List.replicate (n - s.file.length) 0⟩

/-- FileStore `len`: fail `Corruption` unless the file length is a multiple
of `HEADER_SIZE`, else return `length / HEADER_SIZE`. -/
def FileStore.len (s : FileStore) : Except Error Nat :=
  if s.file.length % HEADER_SIZE ≠ 0 then Except.error Error.corruption
  else Except.ok (s.file.length / HEADER_SIZE)

/-- FileStore `iter`: a fresh `Iter` starting at height 0, driven to
completion (enough fuel to reach end-of-file). -/
def FileStore.iter (s : FileStore) : List (Except Error (Nat × BlockHeader)) :=
  iterFrom s.file 0 (s.file.length / HEADER_SIZE + 1)

/-- Byte contents of a file holding exactly the given records in order, as
produced by appending the headers with `io::put` starting from an empty
file. -/
def recordsFile (headers : List BlockHeader) : List Nat :=
  (headers.map encodeHeader).flatten

/-- Concrete header fixture used in the repository's tests (`test_put_get`):
version 1, zeroed hashes, `bits = 0x2ffffff`, `time = 1842918273`, with a
choosable nonce. -/
def testHeader (nonce : Nat) : BlockHeader :=
  { version := 1
    prev_blockhash := List.replicate 32 0
    merkle_root := List.replicate 32 0
    time := 1842918273
    bits := 0x2ffffff
    nonce := nonce }

theorem fromLE_toLE4 (n : Nat) (h : n < 2 ^ 32) : fromLE (toLE 4 n) = n :=
  fromLE_toLE 4 n (lt_of_lt_of_le h (by norm_num))

theorem encodeHeader_length (h : BlockHeader) (hv : h.Valid) :
    (encodeHeader h).length = 80 := by
  obtain ⟨_, hv2, hv3, _, _, _⟩ := hv
  simp [encodeHeader, toLE_length, hv2, hv3]

theorem decodeHeader_encodeHeader (h : BlockHeader) (hv : h.Valid) :
    decodeHeader (encodeHeader h) = some h := by
  obtain ⟨hv1, hv2, hv3, hv4, hv5, hv6⟩ := hv
  have e : encodeHeader h = toLE 4 h.version ++ (h.prev_blockhash ++ (h.merkle_root ++
      (toLE 4 h.time ++ (toLE 4 h.bits ++ toLE 4 h.nonce)))) := by
    simp [encodeHeader, List.append_assoc]
  have len80 : (encodeHeader h).length = 80 := by
    simp [e, toLE_length, hv2, hv3]
  have d0 : (encodeHeader h).take 4 = toLE 4 h.version := by
    rw [e]; exact List.take_left' (toLE_length _ _)
  have d4 : (encodeHeader h).drop 4 = h.prev_blockhash ++ (h.merkle_root ++
      (toLE 4 h.time ++ (toLE 4 h.bits ++ toLE 4 h.nonce))) := by
    rw [e]; exact List.drop_left' (toLE_length _ _)
  have p1 : ((encodeHeader h).drop 4).take 32 = h.prev_blockhash := by
    rw [d4]; exact List.take_left' hv2
  have d36 : (encodeHeader h).drop 36 = h.merkle_root ++
      (toLE 4 h.time ++ (toLE 4 h.bits ++ toLE 4 h.nonce)) := by
    have e2 : ((encodeHeader h).drop 4).drop 32 = (encodeHeader h).drop 36 := by
      rw [List.drop_drop]
    rw [← e2, d4]; exact List.drop_left' hv2
  have p2 : ((encodeHeader h).drop 36).take 32 = h.merkle_root := by
    rw [d36]; exact List.take_left' hv3
  have d68 : (encodeHeader h).drop 68 = toLE 4 h.time ++ (toLE 4 h.bits ++ toLE 4 h.nonce) := by
    have e2 : ((encodeHeader h).drop 36).drop 32 = (encodeHeader h).drop 68 := by
      rw [List.drop_drop]
    rw [← e2, d36]; exact List.drop_left' hv3
  have p3 : ((encodeHeader h).drop 68).take 4 = toLE 4 h.time := by
    rw [d68]; exact List.take_left' (toLE_length _ _)
  have d72 : (encodeHeader h).drop 72 = toLE 4 h.bits ++ toLE 4 h.nonce := by
    have e2 : ((encodeHeader h).drop 68).drop 4 = (encodeHeader h).drop 72 := by
      rw [List.drop_drop]
    rw [← e2, d68]; exact List.drop_left' (toLE_length _ _)
  have p4 : ((encodeHeader h).drop 72).take 4 = toLE 4 h.bits := by
    rw [d72]; exact List.take_left' (toLE_length _ _)
  have d76 : (encodeHeader h).drop 76 = toLE 4 h.nonce := by
    have e2 : ((encodeHeader h).drop 72).drop 4 = (encodeHeader h).drop 76 := by
      rw [List.drop_drop]
    rw [← e2, d72]; exact List.drop_left' (toLE_length _ _)
  have p5 : ((encodeHeader h).drop 76).take 4 = toLE 4 h.nonce := by
    rw [d76]; exact List.take_of_length_le (by rw [toLE_length])
  unfold decodeHeader
  rw [if_neg (by omega)]
  rw [d0, p1, p2, p3, p4, p5, fromLE_toLE4 _ hv1, fromLE_toLE4 _ hv4,
    fromLE_toLE4 _ hv5, fromLE_toLE4 _ hv6]

theorem recordsFile_nil : recordsFile [] = [] := rfl

theorem recordsFile_cons (h : BlockHeader) (t : List BlockHeader) :
    recordsFile (h :: t) = encodeHeader h ++ recordsFile t := by
  simp [recordsFile]

theorem recordsFile_append (l1 l2 : List BlockHeader) :
    recordsFile (l1 ++ l2) = recordsFile l1 ++ recordsFile l2 := by
  simp [recordsFile]

theorem recordsFile_length (hs : List BlockHeader) (hv : ∀ h ∈ hs, h.Valid) :
    (recordsFile hs).length = 80 * hs.length := by
  induction hs with
  | nil => rfl
  | cons h t ih =>
      rw [recordsFile_cons]
      have e80 : (encodeHeader h).length = 80 := encodeHeader_length h (hv h (by simp))
      have ht := ih (fun x hx => hv x (by simp [hx]))
      simp [e80, ht]
      ring

theorem recordsFile_drop (hs : List BlockHeader) (hv : ∀ h ∈ hs, h.Valid) (i : Nat) :
    (recordsFile hs).drop (i * 80) = recordsFile (hs.drop i) := by
  induction i generalizing hs with
  | zero => simp
  | succ i ih =>
      cases hs with
      | nil => simp [recordsFile_nil]
      | cons h t =>
          have e80 : (encodeHeader h).length = 80 := encodeHeader_length h (hv h (by simp))
          have harith : (i + 1) * 80 = 80 + i * 80 := by ring
          rw [harith, recordsFile_cons, ← List.drop_drop, List.drop_left' e80]
          have ht := ih t (fun x hx => hv x (by simp [hx]))
          simpa using ht

theorem ioGet_recordsFile_lt (hs : List BlockHeader) (hv : ∀ h ∈ hs, h.Valid)
    (i : Nat) (hi : i < hs.length) :
    ioGet (recordsFile hs) i = Except.ok (hs.get ⟨i, hi⟩) := by
  show ioGet (recordsFile hs) i = Except.ok hs[i]
  have hlen := recordsFile_length hs hv
  unfold ioGet
  rw [if_neg (by simp only [HEADER_SIZE]; omega)]
  have hdrop : (recordsFile hs).drop (i * HEADER_SIZE) = recordsFile (hs.drop i) := by
    simpa only [HEADER_SIZE] using recordsFile_drop hs hv i
  rw [hdrop, List.drop_eq_getElem_cons hi]
  have hmem : hs[i] ∈ hs := by
    exact List.get_mem hs i hi
  have e80 : (encodeHeader hs[i]).length = 80 := encodeHeader_length _ (hv _ hmem)
  have htake : (recordsFile (hs[i] :: hs.drop (i + 1))).take HEADER_SIZE =
      encodeHeader hs[i] := by
    rw [recordsFile_cons]
    exact List.take_left' e80
  rw [htake, decodeHeader_encodeHeader _ (hv _ hmem)]

theorem ioGet_recordsFile_ge (hs : List BlockHeader) (hv : ∀ h ∈ hs, h.Valid)
    (i : Nat) (hi : hs.length ≤ i) :
    ioGet (recordsFile hs) i = Except.error (Error.io IOErrorKind.unexpectedEof) := by
  have hlen := recordsFile_length hs hv
  unfold ioGet
  rw [if_pos (by simp only [HEADER_SIZE]; omega)]

theorem iterFrom_recordsFile (hs : List BlockHeader) (hv : ∀ h ∈ hs, h.Valid) :
    ∀ (fuel k : Nat), hs.length - k < fuel →
      iterFrom (recordsFile hs) k fuel = (List.enumFrom k (hs.drop k)).map Except.ok := by
  intro fuel
  induction fuel with
  | zero => intro k hk; omega
  | succ fuel ih =>
      intro k hk
      by_cases hlt : k < hs.length
      · have hstep : iterNext (recordsFile hs) k = some (Except.ok (k, hs.get ⟨k, hlt⟩)) := by
          rw [iterNext, ioGet_recordsFile_lt hs hv k hlt]
        rw [iterFrom, hstep]
        show Except.ok (k, hs.get ⟨k, hlt⟩) :: iterFrom (recordsFile hs) (k + 1) fuel = _
        rw [ih (k + 1) (by omega), List.drop_eq_getElem_cons hlt]
        rfl
      · have hstep : iterNext (recordsFile hs) k = none := by
          rw [iterNext, ioGet_recordsFile_ge hs hv k (by omega)]
        rw [iterFrom, hstep, List.drop_eq_nil_of_le (by omega)]
        rfl

/-- Operations of the `Store` trait, as a syntax for operation sequences:
only `put` and `rollback` mutate the store; `get`, `sync`, `iter`, `len` and
`genesis` leave the state unchanged. -/
inductive Op where
  | putOp (headers : List BlockHeader)
  | rollbackOp (height : Nat)
  | getOp (height : Nat)
  | syncOp
  | iterOp
  | lenOp
  | genesisOp
deriving Repr, DecidableEq

/-- State transition of the in-memory store under a single operation. -/
def Memory.applyOp (m : Memory) : Op → Memory
  | Op.putOp hs => (m.put hs).1
  | Op.rollbackOp h => m.rollback h
  | Op.getOp _ => m
  | Op.syncOp => m
  | Op.iterOp => m
  | Op.lenOp => m
  | Op.genesisOp => m

/-- State of the in-memory store after a sequence of operations. -/
def Memory.applyOps (m : Memory) (ops : List Op) : Memory :=
  ops.foldl Memory.applyOp m

theorem Memory.head_rollback (m : Memory) (h : Nat) : (m.rollback h).head = m.head := by
  cases h <;> rfl

theorem Memory.head_applyOp (m : Memory) (op : Op) : (m.applyOp op).head = m.head := by
  cases op <;> first | rfl | exact Memory.head_rollback m _

theorem Memory.head_applyOps (m : Memory) (ops : List Op) :
    (m.applyOps ops).head = m.head := by
  induction ops generalizing m with
  | nil => rfl
  | cons op ops ih =>
      have h1 : m.applyOps (op :: ops) = (m.applyOp op).applyOps ops := rfl
      rw [h1, ih, Memory.head_applyOp]

/-- C7: for every valid block header `h`, decoding the 80-byte buffer
produced by encoding `h` yields `h` again — the codec is a lossless
round-trip over the fixed 80-byte record layout used by the store's `put`
and `get`. -/
theorem decode_encode_roundtrip (h : BlockHeader) (hv : h.Valid) :
    decodeHeader (encodeHeader h) = some h ∧ (encodeHeader h).length = 80 :=
  ⟨decodeHeader_encodeHeader h hv, encodeHeader_length h hv⟩

/-- Witness for C7 at the header fixture of the repository's tests. -/
theorem decode_encode_roundtrip_witness :
    decodeHeader (encodeHeader (testHeader 312143)) = some (testHeader 312143) ∧
      (encodeHeader (testHeader 312143)).length = 80 :=
  decode_encode_roundtrip (testHeader 312143) (by decide)

/-- C8: for every store, `genesis()` is equivalent to `get(0)` — on the
in-memory store both return the head of the non-empty sequence and never
fail; on the file-backed store `genesis` is the trait's default method
`self.get(0)` itself. -/
theorem genesis_equiv_get_zero :
    (∀ m : Memory, m.genesis = m.get 0 ∧ m.genesis = Except.ok m.head) ∧
    (∀ s : FileStore, s.genesis = s.get 0) :=
  ⟨fun _ => ⟨rfl, rfl⟩, fun _ => rfl⟩

theorem ioGetU64_eq_ioGet (file : List Nat) (height : Nat)
    (hno : height * HEADER_SIZE + HEADER_SIZE ≤ 2 ^ 64) :
    ioGetU64 file height = ioGet file height := by
  unfold ioGetU64 ioGet
  have hmod : height * HEADER_SIZE % 2 ^ 64 = height * HEADER_SIZE := by
    apply Nat.mod_eq_of_lt
    have h80 : 0 < HEADER_SIZE := by decide
    omega
  rw [hmod]

/-- C3 counterexample: at the representable height `2^60` on a one-record
store, the u64 byte offset `2^60 * 80` overflows and (in a release build)
wraps to 0, so `get` returns `Ok` of the genesis record — not NotFound —
although the height is far beyond the tip, against the claim's requirement
that every height above the tip fail NotFound (a debug build panics on the
overflow; either way, not NotFound). -/
theorem get_wraps_at_huge_height :
    FileStore.getU64 ⟨recordsFile [testHeader 3]⟩ (2 ^ 60) = Except.ok (testHeader 3) ∧
    (recordsFile [testHeader 3]).length / HEADER_SIZE ≤ 2 ^ 60 ∧
    Except.ok (testHeader 3) ≠ (Except.error Error.notFound : Except Error BlockHeader) :=
  ⟨rfl, by decide, fun hc => Except.noConfusion hc⟩

/-- C3 (amended): `get(h)` fails with the NotFound error kind
(`Io(UnexpectedEof)`) exactly when `h` is beyond the tip, i.e. at least the
number of stored headers (covering the logically empty file store), for
every height whose byte offset `h * 80` plus the record size fits in u64 —
at larger heights the offset computation overflows u64 and the guarantee is
lost (see `get_wraps_at_huge_height`); the in-memory store needs no such
restriction. NotFound is distinct from `Corruption` and `Decoding`. -/
theorem get_notFound_iff_beyond_tip_u64 :
    (∀ (m : Memory) (height : Nat),
      m.get height = Except.error Error.notFound ↔ m.toList.length ≤ height) ∧
    (∀ (hs : List BlockHeader), (∀ x ∈ hs, x.Valid) → ∀ height : Nat,
      height * HEADER_SIZE + HEADER_SIZE ≤ 2 ^ 64 →
      (FileStore.getU64 ⟨recordsFile hs⟩ height = Except.error Error.notFound ↔
        hs.length ≤ height)) ∧
    Error.notFound ≠ Error.corruption ∧ Error.notFound ≠ Error.decoding := by
  refine ⟨?_, ?_, by decide, by decide⟩
  · intro m height
    unfold Memory.get
    cases hq : m.toList.get? height with
    | some h =>
        have hlt : height < m.toList.length := by
          by_contra hge
          rw [List.get?_eq_none.mpr (by omega)] at hq
          exact Option.noConfusion hq
        show Except.ok h = Except.error Error.notFound ↔ m.toList.length ≤ height
        constructor
        · intro hc; exact Except.noConfusion hc
        · intro hge; exact absurd hge (by omega)
    | none =>
        show Except.error (Error.io IOErrorKind.unexpectedEof) = Except.error Error.notFound ↔
          m.toList.length ≤ height
        have hge : m.toList.length ≤ height := List.get?_eq_none.mp hq
        simp [Error.notFound, hge]
  · intro hs hv height hno
    have heq : FileStore.getU64 ⟨recordsFile hs⟩ height = ioGet (recordsFile hs) height :=
      ioGetU64_eq_ioGet (recordsFile hs) height hno
    rw [heq]
    constructor
    · intro hcase
      by_contra hge
      push_neg at hge
      have hok : ioGet (recordsFile hs) height = Except.ok (hs.get ⟨height, hge⟩) :=
        ioGet_recordsFile_lt hs hv height hge
      rw [hok] at hcase
      exact Except.noConfusion hcase
    · intro hge
      rw [ioGet_recordsFile_ge hs hv height hge]
      rfl

/-- Witness for C3 (amended): a single-header file store queried past its
tip at height 1, whose offset computation does not overflow. -/
theorem get_notFound_iff_beyond_tip_u64_witness :
    FileStore.getU64 ⟨recordsFile [testHeader 0]⟩ 1 = Except.error Error.notFound :=
  (get_notFound_iff_beyond_tip_u64.2.1 [testHeader 0] (by decide) 1 (by decide)).mpr (by decide)

/-- C6: `FileStore::len` fails `Corruption` if and only if the file's byte
length is not an exact multiple of the 80-byte record size, and otherwise
returns exactly `file_size / 80`. -/
theorem len_corruption_iff_misaligned (file : List Nat) :
    (FileStore.len ⟨file⟩ = Except.error Error.corruption ↔
      file.length % HEADER_SIZE ≠ 0) ∧
    (file.length % HEADER_SIZE = 0 →
      FileStore.len ⟨file⟩ = Except.ok (file.length / HEADER_SIZE)) := by
  by_cases hmod : file.length % HEADER_SIZE = 0 <;> simp [FileStore.len, hmod]

/-- Witness for C6: an 81-byte file is corrupt; a 160-byte file holds 2
records. -/
theorem len_corruption_iff_misaligned_witness :
    FileStore.len ⟨List.replicate 81 0⟩ = Except.error Error.corruption ∧
      FileStore.len ⟨List.replicate 160 0⟩ = Except.ok 2 := by
  constructor
  · exact (len_corruption_iff_misaligned (List.replicate 81 0)).1.mpr (by decide)
  · have h := (len_corruption_iff_misaligned (List.replicate 160 0)).2 (by decide)
    simpa using h

/-- C4: `iter()` yields `(height, header)` pairs ascending from height 0,
one `Ok` item per stored record, and stops cleanly (yields nothing) at the
first position past the tip; no error item occurs anywhere in the produced
sequence (in this pure model a read never fails other than at end-of-file,
and by construction of `Iter::next` an error item would be terminal). -/
theorem iter_yields_ascending_ok (hs : List BlockHeader) (hv : ∀ x ∈ hs, x.Valid) :
    FileStore.iter ⟨recordsFile hs⟩ = hs.enum.map Except.ok ∧
    ∀ m : Memory, m.iter = m.toList.enum.map Except.ok := by
  constructor
  · show iterFrom (recordsFile hs) 0 ((recordsFile hs).length / HEADER_SIZE + 1) = _
    have hlen := recordsFile_length hs hv
    have hfuel : hs.length - 0 < (recordsFile hs).length / HEADER_SIZE + 1 := by
      rw [hlen]; simp only [HEADER_SIZE]; omega
    rw [iterFrom_recordsFile hs hv _ 0 hfuel]
    rfl
  · intro m; rfl

/-- Witness for C4 on a two-header file store. -/
theorem iter_yields_ascending_ok_witness :
    FileStore.iter ⟨recordsFile [testHeader 0, testHeader 1]⟩ =
      [Except.ok (0, testHeader 0), Except.ok (1, testHeader 1)] := by
  rw [(iter_yields_ascending_ok [testHeader 0, testHeader 1] (by decide)).1]
  rfl

/-- C5: starting from a genesis-only store, `put([h1..hn])` appends the
headers directly after the tip, returns the new tip height `n`, and
afterwards `get(i)` returns `h_i` for each `i` in `1..=n` (stated with
`i = j + 1`, `j < n`), on both backends. -/
theorem put_appends_after_genesis (g : BlockHeader) (hg : g.Valid)
    (hs : List BlockHeader) (hv : ∀ x ∈ hs, x.Valid) (_hne : hs ≠ [])
    (hbound : hs.length < 2 ^ 64) :
    ((Memory.put ⟨g, []⟩ hs).2 = Except.ok hs.length ∧
      ∀ (j : Nat) (hj : j < hs.length),
        (Memory.put ⟨g, []⟩ hs).1.get (j + 1) = Except.ok (hs.get ⟨j, hj⟩)) ∧
    ((FileStore.put ⟨recordsFile [g]⟩ hs).2 = hs.length ∧
      ∀ (j : Nat) (hj : j < hs.length),
        (FileStore.put ⟨recordsFile [g]⟩ hs).1.get (j + 1) = Except.ok (hs.get ⟨j, hj⟩)) := by
  have hvall : ∀ x ∈ [g] ++ hs, x.Valid := by
    intro x hx
    rcases List.mem_append.mp hx with hx1 | hx2
    · simp at hx1; exact hx1 ▸ hg
    · exact hv x hx2
  have hfile : (FileStore.put ⟨recordsFile [g]⟩ hs).1 = ⟨recordsFile ([g] ++ hs)⟩ := by
    show (⟨recordsFile [g] ++ recordsFile hs⟩ : FileStore) = _
    rw [recordsFile_append]
  constructor
  · constructor
    · show Except.ok ((⟨g, [] ++ hs⟩ : Memory).toList.length - 1) = Except.ok hs.length
      simp [Memory.toList]
    · intro j hj
      show Memory.get ⟨g, [] ++ hs⟩ (j + 1) = _
      unfold Memory.get
      have hq : (⟨g, [] ++ hs⟩ : Memory).toList.get? (j + 1) = some (hs.get ⟨j, hj⟩) := by
        show hs.get? j = _
        exact List.get?_eq_get hj
      rw [hq]
  · constructor
    · show u64sub1 ((recordsFile [g] ++ recordsFile hs).length / HEADER_SIZE) = hs.length
      have h1 : (recordsFile [g]).length = 80 := by
        simpa using recordsFile_length [g] (by intro x hx; simp at hx; exact hx ▸ hg)
      have h2 := recordsFile_length hs hv
      have h64 : (2 : Nat) ^ 64 = 18446744073709551616 := by norm_num
      simp only [List.length_append, h1, h2, HEADER_SIZE, u64sub1, h64]
      omega
    · intro j hj
      rw [hfile]
      have hlt : j + 1 < ([g] ++ hs).length := by simp; omega
      have := ioGet_recordsFile_lt ([g] ++ hs) hvall (j + 1) hlt
      show ioGet (recordsFile ([g] ++ hs)) (j + 1) = _
      rw [this]
      rfl

/-- Witness for C5: genesis plus two appended headers, checked at `i = 1`. -/
theorem put_appends_after_genesis_witness :
    (Memory.put ⟨testHeader 9, []⟩ [testHeader 10, testHeader 11]).2 = Except.ok 2 ∧
      (FileStore.put ⟨recordsFile [testHeader 9]⟩ [testHeader 10, testHeader 11]).1.get 1 =
        Except.ok (testHeader 10) := by
  have h := put_appends_after_genesis (testHeader 9) (by decide)
    [testHeader 10, testHeader 11] (by decide) (by decide) (by decide)
  exact ⟨h.1.1, h.2.2 0 (by decide)⟩

/-- C9: `io::put` returns `(final byte position) / 80 - 1` in unsigned
64-bit arithmetic. On an empty header iterator applied to a zero-length
file the subtraction `0 - 1` underflows (wrapping to `2^64 - 1` — in the
source a debug-build panic); whenever the file holds at least one full
record after the writes, the computation is the true tip
`record count - 1`. -/
theorem put_tip_u64_underflow :
    (ioPut [] []).2 = 2 ^ 64 - 1 ∧
    ∀ (file : List Nat) (headers : List BlockHeader),
      1 ≤ (ioPut file headers).1.length / HEADER_SIZE →
      (ioPut file headers).1.length / HEADER_SIZE < 2 ^ 64 →
      (ioPut file headers).2 = (ioPut file headers).1.length / HEADER_SIZE - 1 := by
  constructor
  · rfl
  · intro file headers h1 h2
    show u64sub1 ((ioPut file headers).1.length / HEADER_SIZE) = _
    unfold u64sub1
    have h64 : (2 : Nat) ^ 64 = 18446744073709551616 := by norm_num
    rw [h64] at h2 ⊢
    omega

/-- Witness for C9: a one-record file with no headers appended, where the
returned tip is `1 - 1 = 0`. -/
theorem put_tip_u64_underflow_witness :
    (ioPut (recordsFile [testHeader 0]) []).2 =
      (ioPut (recordsFile [testHeader 0]) []).1.length / HEADER_SIZE - 1 :=
  put_tip_u64_underflow.2 (recordsFile [testHeader 0]) [] (by decide) (by decide)

/-- C10: every operation on the in-memory store preserves structural
non-emptiness: the head of the underlying non-empty sequence is never
removed, so after any sequence of operations `len()` returns at least 1 and
`genesis()` still returns the original genesis header, never an error. -/
theorem memory_preserves_nonempty (m : Memory) (ops : List Op) :
    (m.applyOps ops).head = m.head ∧
    (m.applyOps ops).genesis = Except.ok m.head ∧
    (m.applyOps ops).len = Except.ok (m.applyOps ops).toList.length ∧
    1 ≤ (m.applyOps ops).toList.length := by
  refine ⟨Memory.head_applyOps m ops, ?_, rfl, ?_⟩
  · show Except.ok (m.applyOps ops).head = _
    rw [Memory.head_applyOps]
  · exact Nat.le_add_left 1 _

/-- C1: evaluation of `rollback` at a concrete input. On a store holding
headers at heights 0, 1, 2, after `rollback(1)` the claim requires `get(2)`
to fail NotFound; the file store does truncate to heights `0..=1`, but
`Memory::rollback` runs `tail.truncate(1 + 1)` which keeps height 2, so
`get(2)` still succeeds there (while `get(1)` is unchanged, as claimed). -/
theorem memory_rollback_retains_height_above_target :
    (Memory.rollback ⟨testHeader 0, [testHeader 1, testHeader 2]⟩ 1).get 2 =
      Except.ok (testHeader 2) ∧
    (FileStore.rollback ⟨recordsFile [testHeader 0, testHeader 1, testHeader 2]⟩ 1).get 2 =
      Except.error Error.notFound ∧
    (Memory.rollback ⟨testHeader 0, [testHeader 1, testHeader 2]⟩ 1).get 1 =
      Except.ok (testHeader 1) :=
  ⟨rfl, rfl, rfl⟩

/-- C2: divergence of the two backends on the same legal operation
sequence. Starting from identical contents (heights 0, 1, 2, where both
backends agree on `get(2)`), running `rollback(1)` and then `get(2)` yields
`Ok` on the in-memory store but NotFound on the file-backed store. -/
theorem memory_filestore_rollback_divergence :
    Memory.get ⟨testHeader 5, [testHeader 6, testHeader 7]⟩ 2 =
      FileStore.get ⟨recordsFile [testHeader 5, testHeader 6, testHeader 7]⟩ 2 ∧
    (Memory.rollback ⟨testHeader 5, [testHeader 6, testHeader 7]⟩ 1).get 2 ≠
      (FileStore.rollback ⟨recordsFile [testHeader 5, testHeader 6, testHeader 7]⟩ 1).get 2 := by
  constructor
  · rfl
  · have h1 : (Memory.rollback ⟨testHeader 5, [testHeader 6, testHeader 7]⟩ 1).get 2 =
        Except.ok (testHeader 7) := rfl
    have h2 : (FileStore.rollback
        ⟨recordsFile [testHeader 5, testHeader 6, testHeader 7]⟩ 1).get 2 =
        Except.error Error.notFound := rfl
    rw [h1, h2]
    intro hcontra
    exact Except.noConfusion hcontra

end Nakamoto
